/-
  Verification of the Rain-In-Halloween repository's core utility functions.

  The JavaScript source (src/App.jsx and its variants) is shallowly embedded:
  JS numbers are modelled as rationals (ℚ), exact real arithmetic standing in
  for IEEE doubles; 32-bit integer coercions (used only by mulberry32) are
  modelled as `% 2^32` on ℕ/ℤ; JS values (for the settings validator) are an
  inductive `JSVal`; external library primitives that are not part of the
  repository (THREE.Vector3.distanceTo, Math.cos/sin/sqrt) are passed in as
  function parameters, constrained only by the hypotheses each theorem needs.
-/
import Mathlib

namespace RainHalloween

/-! ## JS numeric primitives

`jsTrunc`/`jsRem` model the JavaScript `%` operator on finite numbers:
`x % L = x - L * truncate(x / L)` (the remainder takes the dividend's sign).
For `L = 0` JS yields NaN; the claims only use `L > 0`, where the model is
exact.  `lerp` and `clampV` are THREE.MathUtils.lerp / clamp.  `jsOr` models
`a || b` on numbers in the only situation the source uses it (`a` is the
denominator guard, falsy exactly when it is 0). -/

def jsTrunc (y : ℚ) : ℤ := if y < 0 then ⌈y⌉ else ⌊y⌋

def jsRem (x L : ℚ) : ℚ := x - L * (jsTrunc (x / L) : ℚ)

/-- The wrap `let x = sVal % L; if (x < 0) x += L` from `uFromS`. -/
def jsWrap (sVal L : ℚ) : ℚ :=
  let x := jsRem sVal L
  if x < 0 then x + L else x

/-- THREE.MathUtils.lerp: `x + (y - x) * t`. -/
def lerp (x y t : ℚ) : ℚ := x + (y - x) * t

/-- THREE.MathUtils.clamp: `Math.max(min, Math.min(max, value))`. -/
def clampV (value lo hi : ℚ) : ℚ := max lo (min hi value)

/-- Model of `a || b` for the numeric denominator guard in `uFromS`. -/
def jsOr (a b : ℚ) : ℚ := if a = 0 then b else a

/-! ## mulberry32 (claim C9)

```js
function mulberry32(seed) {
  return function() {
    let t = (seed += 0x6D2B79F5)
    t = Math.imul(t ^ (t >>> 15), t | 1)
    t ^= t + Math.imul(t ^ (t >>> 7), t | 61)
    return ((t ^ (t >>> 14)) >>> 0) / 4294967296
  }
}
```
The closure's float `seed` accumulator is modelled as an exact integer
(`ℤ`); every bitwise operator / `Math.imul` coerces its operands to 32 bits,
modelled by `% 2^32` on ℕ. -/

/-- JS ToUint32 of an (exactly represented) integer. -/
def toUint32 (z : ℤ) : ℕ := (z % (2 ^ 32 : ℤ)).toNat

/-- Math.imul: 32-bit integer multiply (as a bit pattern). -/
def imul32 (a b : ℕ) : ℕ := (a * b) % 2 ^ 32

/-- JS `>>> 0`: ToUint32 of a nonnegative bit pattern. -/
def shrZero (t : ℕ) : ℕ := t % 2 ^ 32

/-- One call of the closure returned by `mulberry32`: takes the current
`seed` accumulator, returns the updated accumulator and the value in
`[0, 1)` produced by this call. -/
def mulberry32Step (seed : ℤ) : ℤ × ℚ :=
  let seed1 := seed + 0x6D2B79F5
  let t0 := toUint32 seed1
  let t1 := imul32 (t0 ^^^ (t0 >>> 15)) (t0 ||| 1)
  let t2 := t1 ^^^ ((t1 + imul32 (t1 ^^^ (t1 >>> 7)) (t1 ||| 61)) % 2 ^ 32)
  (seed1, (shrZero (t2 ^^^ (t2 >>> 14)) : ℚ) / 4294967296)

/-- The value `mulberry32 seed n` is the one produced by the `(n+1)`-th call of the
generator created with seed `seed`. -/
def mulberry32 (seed : ℤ) : ℕ → ℚ
  | 0 => (mulberry32Step seed).2
  | n + 1 => mulberry32 (mulberry32Step seed).1 n

/-! ## 3-vectors

A minimal model of THREE.Vector3 as used by the rain and lightning code.
Math.sqrt / Math.cos / Math.sin are external library functions, so the
definitions that need them take them as parameters. -/

structure Vec3 where
  x : ℚ
  y : ℚ
  z : ℚ
deriving DecidableEq

def Vec3.add (a b : Vec3) : Vec3 := ⟨a.x + b.x, a.y + b.y, a.z + b.z⟩

def Vec3.sub (a b : Vec3) : Vec3 := ⟨a.x - b.x, a.y - b.y, a.z - b.z⟩

def Vec3.smul (a : Vec3) (c : ℚ) : Vec3 := ⟨a.x * c, a.y * c, a.z * c⟩

def Vec3.dot (a b : Vec3) : ℚ := a.x * b.x + a.y * b.y + a.z * b.z

def Vec3.lengthSq (a : Vec3) : ℚ := a.x * a.x + a.y * a.y + a.z * a.z

/-! ## Rain particle update (claim C3)

The per-particle body of `Rain`'s `useFrame` callback:

```js
const dt = Math.min(dtRaw, 0.05)
p[i3+0] += v[i3+0] * dt; p[i3+1] += v[i3+1] * dt; p[i3+2] += v[i3+2] * dt
if (p[i3+1] < groundY) {
  const t = Math.random() * Math.PI * 2
  const r = Math.sqrt(Math.random()) * areaRadius
  p[i3+0] = Math.cos(t) * r
  p[i3+1] = groundY + areaHeight
  p[i3+2] = Math.sin(t) * r
}
```

`cosF`, `sinF`, `sqrtF` stand for Math.cos / Math.sin / Math.sqrt and
`mathPi` for Math.PI; `rt`, `rr` are the two Math.random() draws consumed
when (and only when) the reset branch runs. -/

def rainFrameParticle (cosF sinF sqrtF : ℚ → ℚ) (mathPi : ℚ)
    (areaRadius areaHeight groundY : ℚ) (dtRaw : ℚ)
    (p v : Vec3) (rt rr : ℚ) : Vec3 :=
  let dt := min dtRaw 0.05
  let p1 : Vec3 := ⟨p.x + v.x * dt, p.y + v.y * dt, p.z + v.z * dt⟩
  if p1.y < groundY then
    let t := rt * mathPi * 2
    let r := sqrtF rr * areaRadius
    ⟨cosF t * r, groundY + areaHeight, sinF t * r⟩
  else p1

/-! ## Lightning bolt generation (claims C4 and C8)

`makeBoltPointsRand` (part_000) and `makeBoltPoints` (App - ghostRunning.jsx)
are the same function; the former draws from an explicit PRNG closure, the
latter from Math.random().  Both are modelled by threading a draw stream
`rnd : ℕ → ℚ` together with the index of the next unconsumed draw. -/

/-- Function `randomPerpRand(dir, rand)`: consumes three draws starting at `ix`,
returns the (re-normalised) perpendicular jitter direction and the next
draw index.  The `!Number.isFinite(v.x)` check fires exactly when the
normalisation divided by a zero length, which is modelled directly by
testing the length. -/
def randomPerpRand (sqrtF : ℚ → ℚ) (dir : Vec3) (rnd : ℕ → ℚ) (ix : ℕ) :
    Vec3 × ℕ :=
  let v : Vec3 := ⟨rnd ix - 0.5, rnd (ix + 1) - 0.5, rnd (ix + 2) - 0.5⟩
  let proj := dir.smul (v.dot dir / max 0.000001 dir.lengthSq)
  let w := v.sub proj
  let len := sqrtF w.lengthSq
  let n := if len = 0 then (⟨0, 1, 0⟩ : Vec3) else w.smul (1 / len)
  (n, ix + 3)

/-- The displaced midpoint of one segment: `mid = (p0+p1)/2 + perp * ((rand()*2-1) * disp)`.
Consumes four draws starting at `ix`. -/
def midDisplaced (sqrtF : ℚ → ℚ) (rnd : ℕ → ℚ) (disp : ℚ) (p0 p1 : Vec3)
    (ix : ℕ) : Vec3 × ℕ :=
  let mid := (p0.add p1).smul 0.5
  let dir := p1.sub p0
  let pn := randomPerpRand sqrtF dir rnd ix
  let n := pn.1.smul ((rnd pn.2 * 2 - 1) * disp)
  (mid.add n, pn.2 + 1)

/-- One subdivision pass: `next = [pts[0]]; for j: next.push(mid_j, pts[j+1])`. -/
def subdivPass (sqrtF : ℚ → ℚ) (rnd : ℕ → ℚ) (disp : ℚ) :
    List Vec3 → ℕ → List Vec3 × ℕ
  | [], ix => ([], ix)
  | [p], ix => ([p], ix)
  | p0 :: p1 :: rest, ix =>
    let m := midDisplaced sqrtF rnd disp p0 p1 ix
    let tail := subdivPass sqrtF rnd disp (p1 :: rest) m.2
    (p0 :: m.1 :: tail.1, tail.2)

/-- The `for (let i = 0; i < subdivisions; i++)` loop of `makeBoltPointsRand`,
with `disp *= roughness` after each pass. -/
def boltIter (sqrtF : ℚ → ℚ) (rnd : ℕ → ℚ) (roughness : ℚ) :
    ℕ → List Vec3 → ℚ → ℕ → List Vec3
  | 0, pts, _, _ => pts
  | n + 1, pts, disp, ix =>
    let r := subdivPass sqrtF rnd disp pts ix
    boltIter sqrtF rnd roughness n r.1 (disp * roughness) r.2

/-- Function `makeBoltPointsRand(a, b, opts, rand)` with options
subdivisions, sway and roughness (identical to ghostRunning's
`makeBoltPoints` with Math.random() as the stream).  The distance
`a.distanceTo(b)` is `sqrtF` of the squared distance. -/
def makeBoltPointsRand (sqrtF : ℚ → ℚ) (a b : Vec3) (subdivisions : ℕ)
    (sway roughness : ℚ) (rnd : ℕ → ℚ) : List Vec3 :=
  let disp := sway * sqrtF ((b.sub a).lengthSq) * 0.05
  boltIter sqrtF rnd roughness subdivisions [a, b] disp 0

/-- Loop body of `enforceDownward(pts, minStep)` (tail of the list; `lastY` is the
y-coordinate of the previously emitted point).  A Math.random() draw is
consumed only when the correction branch fires. -/
def enforceGo (minStep : ℚ) (rnd : ℕ → ℚ) : ℚ → ℕ → List Vec3 → List Vec3 × ℕ
  | _, ix, [] => ([], ix)
  | lastY, ix, p :: rest =>
    if lastY - minStep ≤ p.y then
      let y1 := lastY - (minStep + rnd ix * 0.04)
      let r := enforceGo minStep rnd y1 (ix + 1) rest
      (⟨p.x, y1, p.z⟩ :: r.1, r.2)
    else
      let r := enforceGo minStep rnd p.y ix rest
      (p :: r.1, r.2)

/-- Function `enforceDownward`: the first point is kept, later points are forced to
descend by at least `minStep` each.  (On an empty list the JS code would
throw reading `out[0].y`; the claims only concern non-empty inputs.) -/
def enforceDownward (pts : List Vec3) (minStep : ℚ) (rnd : ℕ → ℚ) :
    List Vec3 :=
  match pts with
  | [] => []
  | p :: rest => p :: (enforceGo minStep rnd p.y 0 rest).1

/-! ## Arc-length lookup table (claim C1)

```js
function buildArcLengthLUT(curve, samples = 2000) {
  const u = new Float32Array(samples + 1)
  const s = new Float32Array(samples + 1)
  let acc = 0
  let prev = curve.getPointAt(0)
  u[0] = 0; s[0] = 0
  for (let i = 1; i <= samples; i++) {
    const t = i / samples
    const p = curve.getPointAt(t)
    acc += p.distanceTo(prev)
    u[i] = t; s[i] = acc
    prev = p
  }
  return { u, s, L: acc }
}
```

The curve is abstracted as its sampling function `curve : ℚ → P` together
with the THREE.Vector3 metric `dist : P → P → ℚ` (an external library
function; the theorems assume only that it is nonnegative). -/

structure LUT where
  u : Array ℚ
  s : Array ℚ
  L : ℚ

/-- State of the build loop after the first `n` iterations:
`(u, s, acc, prev)`. -/
def buildState {P : Type} (curve : ℚ → P) (dist : P → P → ℚ) (samples : ℕ)
    (n : ℕ) : Array ℚ × Array ℚ × ℚ × P :=
  (List.range n).foldl
    (fun st k =>
      let i : ℕ := k + 1
      let t : ℚ := (i : ℚ) / (samples : ℚ)
      let p := curve t
      let acc := st.2.2.1 + dist p st.2.2.2
      (st.1.push t, st.2.1.push acc, acc, p))
    (#[(0 : ℚ)], #[(0 : ℚ)], (0 : ℚ), curve 0)

def buildArcLengthLUT {P : Type} (curve : ℚ → P) (dist : P → P → ℚ)
    (samples : ℕ) : LUT :=
  let st := buildState curve dist samples samples
  ⟨st.1, st.2.1, st.2.2.1⟩

/-- The chord length accumulated by iteration `k+1` of the build loop. -/
def chord {P : Type} (curve : ℚ → P) (dist : P → P → ℚ) (samples : ℕ)
    (k : ℕ) : ℚ :=
  dist (curve (((k : ℚ) + 1) / (samples : ℚ))) (curve ((k : ℚ) / (samples : ℚ)))

/-- The `while (lo + 1 < hi)` binary search of `uFromS`.
`(lo + hi) >> 1` is natural-number halving. -/
def bisectLoop (s : Array ℚ) (x : ℚ) (lo hi : ℕ) : ℕ × ℕ :=
  if h : lo + 1 < hi then
    let mid := (lo + hi) / 2
    if s.getD mid 0 ≤ x then bisectLoop s x mid hi else bisectLoop s x lo mid
  else (lo, hi)
termination_by hi - lo
decreasing_by
· omega
· omega

/-- Function `uFromS(lut, sVal)`: wrap into `[0, L)`, bracket by binary search,
linearly interpolate. -/
def uFromS (lut : LUT) (sVal : ℚ) : ℚ :=
  let x := jsWrap sVal lut.L
  let lh := bisectLoop lut.s x 0 (lut.s.size - 1)
  let t := (x - lut.s.getD lh.1 0) / jsOr (lut.s.getD lh.2 0 - lut.s.getD lh.1 0) 1
  lerp (lut.u.getD lh.1 0) (lut.u.getD lh.2 0) t

/-! ## Coaster car frame update (claim C2)

The `useFrame` body of `CoasterSpriteCar`:

```js
const dtClamped = Math.min(dtRaw, 0.05)
let remaining = dtClamped * speedScale
let v = vRef.current
let s = sRef.current
const maxStep = 1 / 120
while (remaining > 0) {
  const step = Math.min(remaining, maxStep)
  const u0 = uFromS(lut, s)
  const t0 = curve.getTangentAt(u0).normalize()
  const a  = -g * t0.y - drag * v
  v = THREE.MathUtils.clamp(v + a * step, minV, maxV)
  s = (s + v * step) % lut.L
  remaining -= step
}
vRef.current = v
sRef.current = s
```

`tangentY u` abstracts `curve.getTangentAt(u).normalize().y` (an external
curve-library quantity; no property of it is needed). -/

def carLoop (lut : LUT) (tangentY : ℚ → ℚ) (g drag minV maxV : ℚ)
    (remaining v s : ℚ) : ℚ × ℚ :=
  if h : 0 < remaining then
    let step := min remaining (1 / 120)
    let u0 := uFromS lut s
    let a := -g * tangentY u0 - drag * v
    let v1 := clampV (v + a * step) minV maxV
    let s1 := jsRem (s + v1 * step) lut.L
    carLoop lut tangentY g drag minV maxV (remaining - step) v1 s1
  else (v, s)
termination_by (⌈remaining * 120⌉).toNat
decreasing_by
· rcases le_or_lt remaining (1 / 120) with hle | hlt
  · rw [min_eq_left hle]
    have h0 : remaining - remaining = 0 := by ring
    rw [h0]
    have h1 : (0 : ℤ) < ⌈remaining * 120⌉ := by
      rw [Int.lt_ceil]
      push_cast
      positivity
    simp only [zero_mul, Int.ceil_zero]
    omega
  · rw [min_eq_right hlt.le]
    have hc : ⌈(remaining - 1 / 120) * 120⌉ = ⌈remaining * 120⌉ - 1 := by
      have : (remaining - 1 / 120) * 120 = remaining * 120 - 1 := by ring
      rw [this, Int.ceil_sub_one]
    have h2 : (1 : ℤ) < ⌈remaining * 120⌉ := by
      rw [Int.lt_ceil]
      push_cast
      nlinarith
    rw [hc]
    omega

/-- The full frame update: returns the car's `(v, s)` after the frame. -/
def carUpdate (lut : LUT) (tangentY : ℚ → ℚ)
    (g drag minV maxV speedScale : ℚ) (dtRaw : ℚ) (v s : ℚ) : ℚ × ℚ :=
  let dtClamped := min dtRaw 0.05
  let remaining := dtClamped * speedScale
  carLoop lut tangentY g drag minV maxV remaining v s

/-- The sequence of sub-step durations consumed by the while loop for a
given initial `remaining` budget. -/
def carSubSteps (remaining : ℚ) : List ℚ :=
  if h : 0 < remaining then
    min remaining (1 / 120) :: carSubSteps (remaining - min remaining (1 / 120))
  else []
termination_by (⌈remaining * 120⌉).toNat
decreasing_by
· rcases le_or_lt remaining (1 / 120) with hle | hlt
  · rw [min_eq_left hle]
    have h0 : remaining - remaining = 0 := by ring
    rw [h0]
    have h1 : (0 : ℤ) < ⌈remaining * 120⌉ := by
      rw [Int.lt_ceil]
      push_cast
      positivity
    simp only [zero_mul, Int.ceil_zero]
    omega
  · rw [min_eq_right hlt.le]
    have hc : ⌈(remaining - 1 / 120) * 120⌉ = ⌈remaining * 120⌉ - 1 := by
      have : (remaining - 1 / 120) * 120 = remaining * 120 - 1 := by ring
      rw [this, Int.ceil_sub_one]
    have h2 : (1 : ℤ) < ⌈remaining * 120⌉ := by
      rw [Int.lt_ceil]
      push_cast
      nlinarith
    rw [hc]
    omega

/-- The mount-time initialisation of the car's refs:
`s = (startU % 1) * lut.L; v = clamp(uSpeed * lut.L, minV, maxV)`. -/
def carInit (lut : LUT) (uSpeed minV maxV startU : ℚ) : ℚ × ℚ :=
  (clampV (uSpeed * lut.L) minV maxV, jsRem startU 1 * lut.L)

/-! ## JS values and the settings validator (claims C5, C6, C10)

`JSVal` models the JavaScript values that can reach `validateEnv` /
`clamp01` after `JSON.parse` (plus `undefined` and NaN, which arise from
missing keys and failed numeric conversion).  `jsToNumber` models the JS
ToNumber conversion with `none` standing for NaN; on strings only the
plain decimal grammar is modelled (hex/exponent forms and objects would
only enlarge the set of inputs converting to a number, which no claim
depends on). -/

inductive JSVal where
  | num (q : ℚ)
  | nan
  | str (s : String)
  | boolean (b : Bool)
  | null
  | undef
  | obj (fields : List (String × JSVal))

def natOfDigits (cs : List Char) : ℕ :=
  cs.foldl (fun a c => a * 10 + (c.toNat - 48)) 0

def parseUnsigned (cs : List Char) : Option ℚ :=
  let intPart := cs.takeWhile Char.isDigit
  let rest := cs.dropWhile Char.isDigit
  match rest with
  | [] => if intPart.isEmpty then none else some (natOfDigits intPart : ℚ)
  | c :: frac =>
    if c = '.' && frac.all Char.isDigit && !(intPart.isEmpty && frac.isEmpty) then
      some ((natOfDigits intPart : ℚ) + (natOfDigits frac : ℚ) / (10 : ℚ) ^ frac.length)
    else none

/-- JS ToNumber on a string: trimmed empty string is 0, otherwise an
optionally signed decimal numeral; anything else is NaN (`none`). -/
def jsStrToNumber (s : String) : Option ℚ :=
  let cs := ((s.data.dropWhile Char.isWhitespace).reverse.dropWhile
    Char.isWhitespace).reverse
  match cs with
  | [] => some 0
  | c :: rest =>
    if c = '-' then (parseUnsigned rest).map (fun q => -q)
    else if c = '+' then parseUnsigned rest
    else parseUnsigned cs

def jsToNumber : JSVal → Option ℚ
  | .num q => some q
  | .nan => none
  | .str s => jsStrToNumber s
  | .boolean b => some (if b then 1 else 0)
  | .null => some 0
  | .undef => none
  | .obj _ => none

/-- Model of `clamp01(x)`: `x = Number(x); if (Number.isNaN(x)) return 1;
return Math.min(1, Math.max(0, x))`. -/
def clamp01 (v : JSVal) : ℚ :=
  match jsToNumber v with
  | none => 1
  | some x => min 1 (max 0 x)

/-! ## validateEnv (claim C5)

```js
function validateEnv(obj, fallback) {
  const safe = { ...fallback }
  if (!obj || typeof obj !== 'object') return safe
  const ALLOWED_PRESETS = ['apartment','city','dawn','forest','lobby','night','park','studio','sunset','warehouse']
  const keys = Object.keys(fallback)
  for (const k of keys) {
    const v = obj[k]; if (v === undefined) continue
    if (/_Alpha$/.test(k)) safe[k] = clamp01(v)
    else if (['hemiEnabled','dirEnabled','rimEnabled'].includes(k)) safe[k] = !!v
    else if ([...numeric keys...].includes(k)) safe[k] = Number(v)
    else if (k === 'fogType' && (v === 'linear' || v === 'exp2')) safe[k] = v
    else if (k === 'envPreset') safe[k] = ALLOWED_PRESETS.includes(String(v)) ? String(v) : fallback.envPreset
    else if (typeof v === 'string') safe[k] = v
  }
  return safe
}
```

Objects are association lists with distinct keys; `Object.keys(fallback)`
iteration plus `safe = {...fallback}` is modelled as a map over the
fallback's entries. -/

def strEndsWith (k pat : String) : Bool :=
  k.data.reverse.take pat.data.length == pat.data.reverse

def jsTruthy : JSVal → Bool
  | .num q => q != 0
  | .nan => false
  | .str s => !s.isEmpty
  | .boolean b => b
  | .null => false
  | .undef => false
  | .obj _ => true

def JSVal.isUndef : JSVal → Bool
  | .undef => true
  | _ => false

/-- Test `typeof v === 'string'`. -/
def JSVal.isStr : JSVal → Bool
  | .str _ => true
  | _ => false

/-- Strict equality of a JS value with a string literal. -/
def isStrEq : JSVal → String → Bool
  | .str t, s => t == s
  | _, _ => false

/-- JS ToString as far as the validator can observe it: only a string
input can ever produce one of the preset names, so the exact numeric
rendering is irrelevant. -/
def jsToString : JSVal → String
  | .num q => toString q
  | .nan => "NaN"
  | .str s => s
  | .boolean true => "true"
  | .boolean false => "false"
  | .null => "null"
  | .undef => "undefined"
  | .obj _ => "[object Object]"

/-- Property access `o[k]` (undefined when absent). -/
def objGet (o : List (String × JSVal)) (k : String) : JSVal :=
  match List.lookup k o with
  | some v => v
  | none => .undef

def ALLOWED_PRESETS : List String :=
  ["apartment", "city", "dawn", "forest", "lobby", "night", "park",
   "studio", "sunset", "warehouse"]

def BOOL_KEYS : List String := ["hemiEnabled", "dirEnabled", "rimEnabled"]

def NUMERIC_KEYS : List String :=
  ["dirIntensity", "gradientExponent", "fogNear", "fogFar", "fogDensity",
   "envIntensity", "ambientIntensity", "hemiIntensity",
   "sunAzimuth", "sunElevation", "rimIntensity", "rimAzimuth", "rimElevation"]

/-- Conversion `Number(v)`, NaN represented explicitly. -/
def numOrNan (v : JSVal) : JSVal :=
  match jsToNumber v with
  | none => .nan
  | some q => .num q

/-- The if/else-if chain of the validator loop body, for a key `k` whose
input value `v` is defined; `fv` is the fallback's value for `k`. -/
def validateKey (fallbackPreset : JSVal) (k : String) (v fv : JSVal) : JSVal :=
  if strEndsWith k "_Alpha" then .num (clamp01 v)
  else if BOOL_KEYS.contains k then .boolean (jsTruthy v)
  else if NUMERIC_KEYS.contains k then numOrNan v
  else if k == "fogType" && (isStrEq v "linear" || isStrEq v "exp2") then v
  else if k == "envPreset" then
    (if ALLOWED_PRESETS.contains (jsToString v) then .str (jsToString v)
     else fallbackPreset)
  else if v.isStr then v
  else fv

def validateEnv (obj : JSVal) (fallback : List (String × JSVal)) :
    List (String × JSVal) :=
  match obj with
  | .obj o =>
    fallback.map (fun kv =>
      let v := objGet o kv.1
      if v.isUndef then kv
      else (kv.1, validateKey (objGet fallback "envPreset") kv.1 v kv.2))
  | _ => fallback

/-- The `defaults` object of App.jsx (the fallback passed to `validateEnv`). -/
def defaultsEnv : List (String × JSVal) :=
  [("skyTop", .str "#87CEE8"), ("skyTopAlpha", .num 1),
   ("skyBottom", .str "#FFFFFF"), ("skyBottomAlpha", .num 1),
   ("groundColor", .str "#FFF8DC"), ("groundAlpha", .num 1),
   ("sunColor", .str "#FFD580"),
   ("fogType", .str "linear"),
   ("fogNear", .num 1),
   ("fogFar", .num 4000),
   ("fogDensity", .num 0.0025),
   ("gradientExponent", .num 0.9),
   ("envPreset", .str "lobby"),
   ("envIntensity", .num 0.8),
   ("ambientColor", .str "#FFF6DA"),
   ("ambientIntensity", .num 0.25),
   ("hemiEnabled", .boolean true),
   ("hemiIntensity", .num 0.6),
   ("dirEnabled", .boolean true),
   ("dirIntensity", .num 1.3),
   ("sunAzimuth", .num 45),
   ("sunElevation", .num 55),
   ("rimEnabled", .boolean false),
   ("rimColor", .str "#ffffff"),
   ("rimIntensity", .num 0),
   ("rimAzimuth", .num 220),
   ("rimElevation", .num 25)]

/-! ## Runtime settings fetch effects (claim C6)

The lights-settings effect (App.jsx, `lights-settings.txt`):
fetch → text → `try { parse; validate; setEnv({...validated, envPreset:'lobby'}) }
catch { setEnv({...defaults}) }`, with `.catch(() => setEnv({...defaults}))`
on the fetch itself.  The purple-mountains effect
(`purple-mountains-settings.txt`) returns early on a non-ok status and
merely warns in its catch block, leaving all state untouched. -/

inductive LightsOutcome where
  | fetchFail
  | parseFail
  | parsed (v : JSVal)

inductive PurpleOutcome where
  | statusNotOk
  | threw
  | parsed (v : JSVal)

/-- Override of one key of an object, modelling the spread of the
validated object followed by the literal envPreset entry. -/
def objSetKey (l : List (String × JSVal)) (k : String) (v : JSVal) :
    List (String × JSVal) :=
  l.map (fun kv => if kv.1 == k then (kv.1, v) else kv)

/-- The env state written by the lights-settings effect for each outcome. -/
def lightsSettingsEffect (defaults : List (String × JSVal)) :
    LightsOutcome → List (String × JSVal)
  | .fetchFail => defaults
  | .parseFail => defaults
  | .parsed p => objSetKey (validateEnv p defaults) "envPreset" (.str "lobby")

/-- The scene state after the purple-mountains settings effect, where
`applyParsed` is the success-branch series of setter calls. -/
def purpleSettingsEffect {S : Type} (applyParsed : JSVal → S → S) (state : S) :
    PurpleOutcome → S
  | .statusNotOk => state
  | .threw => state
  | .parsed v => applyParsed v state

/-! ## MotionDetector (claim C7)

`onResults` (part_000): throttled pose-landmark processing emitting a
smoothed motion value through `onChange`; `start` retries on a user
gesture after a failed camera/pose startup. -/

structure Landmark where
  y : ℚ
  visibility : Option ℚ

structure MDState where
  y : Option ℚ
  t : ℚ
  out : ℚ
  last : ℚ
  g : Option ℚ

/-- The reset state `{ __v:3, y:null, t:0, out:0, last:0 }`. -/
def mdInit : MDState := ⟨none, 0, 0, 0, none⟩

/-- Helper `takeAvg(ids, vis)`: mean y of the landmarks with sufficient
visibility (`p && (p.visibility ?? 0) >= vis`), or null. -/
def takeAvg (lm : ℕ → Option Landmark) (ids : List ℕ) (vis : ℚ) : Option ℚ :=
  let pts := ((ids.map lm).filterMap id).filter
    (fun p => vis ≤ p.visibility.getD 0)
  if pts.isEmpty then none
  else some ((pts.map Landmark.y).sum / (pts.length : ℚ))

/-- One invocation of the `onResults` callback: given the stored state,
the (optional) landmark list of the result and the current time in ms,
returns the new stored state and the value passed to `onChange`
(none when nothing is emitted). -/
def onResultsStep (st : MDState) (lm : Option (ℕ → Option Landmark))
    (now : ℚ) : MDState × Option ℚ :=
  if now - st.last < 1000 / 15 then (st, none)
  else
    let st1 := { st with last := now }
    match lm with
    | none => ({ st1 with out := 0 }, some 0)
    | some f =>
      match (match takeAvg f [23, 24] 0.5 with
             | some y => some y
             | none => takeAvg f [11, 12] 0.5) with
      | none => ({ st1 with out := 0 }, some 0)
      | some y =>
        match st.y with
        | none => ({ st1 with y := some y, t := now, out := 0 }, some 0)
        | some y0 =>
          let dt := max 0.001 ((now - st.t) / 1000)
          let vy := (y0 - y) / dt
          let speed := max 0 (|vy| - 0.0015)
          let g0 := st.g.getD y
          let targetG := max y g0
          let g1 := g0 * 0.985 + targetG * 0.015
          let lift := max 0 (g1 - y)
          let raw := speed * 1100 + lift * 550
          let out0 := 0.7 * raw + (1 - 0.7) * st.out
          let out1 := if speed ≤ 0 ∧ lift < 0.002 then 0 else out0
          ({ st1 with y := some y, t := now, out := out1, g := some g1 },
           some out1)

structure DetFlags where
  started : Bool
  waiting : Bool
deriving DecidableEq

/-- One invocation of `start()`: the guard returns immediately when
already started; on success the camera runs; on failure the waiting flag
is set and started is cleared. -/
def startAttempt (f : DetFlags) (succeeds : Bool) : DetFlags :=
  if f.started then f
  else if succeeds then { started := true, waiting := f.waiting }
  else { started := false, waiting := true }

/-- The pointerdown/keydown handler `retry`: calls `start()` only when the
waiting flag is set. -/
def gestureEvent (f : DetFlags) (succeeds : Bool) : DetFlags :=
  if f.waiting then startAttempt f succeeds else f

/-! ## Theorems -/

theorem jsRem_eq_fract_mul {x L : ℚ} (hx : 0 ≤ x) (hL : 0 < L) :
    jsRem x L = L * Int.fract (x / L) := by
  have hdiv : 0 ≤ x / L := div_nonneg hx hL.le
  unfold jsRem jsTrunc
  rw [if_neg (not_lt.mpr hdiv)]
  have : Int.fract (x / L) = x / L - ⌊x / L⌋ := rfl
  rw [this]
  field_simp

theorem jsRem_nonneg_lt {x L : ℚ} (hx : 0 ≤ x) (hL : 0 < L) :
    0 ≤ jsRem x L ∧ jsRem x L < L := by
  rw [jsRem_eq_fract_mul hx hL]
  constructor
  · exact mul_nonneg hL.le (Int.fract_nonneg _)
  · have h1 : Int.fract (x / L) < 1 := Int.fract_lt_one _
    calc L * Int.fract (x / L) < L * 1 := by
          exact mul_lt_mul_of_pos_left h1 hL
    _ = L := mul_one L

theorem jsWrap_mem {sVal L : ℚ} (hL : 0 < L) :
    0 ≤ jsWrap sVal L ∧ jsWrap sVal L < L := by
  unfold jsWrap
  by_cases hx : 0 ≤ sVal
  · have h := jsRem_nonneg_lt hx hL
    rw [if_neg (not_lt.mpr h.1)]
    exact h
  · push_neg at hx
    have hdiv : sVal / L < 0 := div_neg_of_neg_of_pos hx hL
    have hrem : jsRem sVal L = sVal - L * ⌈sVal / L⌉ := by
      unfold jsRem jsTrunc
      rw [if_pos hdiv]
    have hle : jsRem sVal L ≤ 0 := by
      rw [hrem]
      have h1 : sVal / L ≤ (⌈sVal / L⌉ : ℚ) := Int.le_ceil _
      have h2 : sVal ≤ L * ⌈sVal / L⌉ := by
        have := mul_le_mul_of_nonneg_left h1 hL.le
        rwa [mul_div_cancel₀ sVal hL.ne'] at this
      linarith
    have hgt : -L < jsRem sVal L := by
      rw [hrem]
      have h1 : (⌈sVal / L⌉ : ℚ) < sVal / L + 1 := Int.ceil_lt_add_one _
      have h2 : L * (⌈sVal / L⌉ : ℚ) < L * (sVal / L + 1) := by
        exact mul_lt_mul_of_pos_left h1 hL
      rw [mul_add, mul_one, mul_div_cancel₀ sVal hL.ne'] at h2
      linarith
    by_cases hz : jsRem sVal L < 0
    · rw [if_pos hz]
      constructor <;> linarith
    · rw [if_neg hz]
      push_neg at hz
      constructor
      · exact hz
      · linarith

theorem shrZero_lt (t : ℕ) : shrZero t < 2 ^ 32 :=
  Nat.mod_lt _ (by norm_num)

theorem mulberry32Step_mem (seed : ℤ) :
    0 ≤ (mulberry32Step seed).2 ∧ (mulberry32Step seed).2 < 1 := by
  unfold mulberry32Step
  simp only
  constructor
  · positivity
  · rw [div_lt_one (by norm_num)]
    exact_mod_cast lt_of_lt_of_le (shrZero_lt _) (by norm_num)

/-! ## Lemmas about the LUT construction and binary search -/

theorem getD_push (a : Array ℚ) (y : ℚ) (i : ℕ) :
    (a.push y).getD i 0 = if i = a.size then y else a.getD i 0 := by
  by_cases hi : i = a.size
  · subst hi
    rw [if_pos rfl]
    have h : a.size < (a.push y).size := by simp [Array.size_push]
    simp only [Array.getD]
    rw [dif_pos h, Array.get_eq_getElem, Array.getElem_push_eq]
  · rw [if_neg hi]
    by_cases hlt : i < a.size
    · have h1 : i < (a.push y).size := by simp [Array.size_push]; omega
      simp only [Array.getD]
      rw [dif_pos h1, dif_pos hlt, Array.get_eq_getElem, Array.get_eq_getElem,
        Array.getElem_push_lt]
    · have h1 : ¬ i < (a.push y).size := by simp [Array.size_push]; omega
      simp only [Array.getD]
      rw [dif_neg h1, dif_neg hlt]

theorem buildState_succ {P : Type} (curve : ℚ → P) (dist : P → P → ℚ)
    (samples n : ℕ) :
    buildState curve dist samples (n + 1) =
      ((buildState curve dist samples n).1.push (((n : ℚ) + 1) / (samples : ℚ)),
       (buildState curve dist samples n).2.1.push
         ((buildState curve dist samples n).2.2.1 +
           dist (curve (((n : ℚ) + 1) / (samples : ℚ)))
             (buildState curve dist samples n).2.2.2),
       (buildState curve dist samples n).2.2.1 +
         dist (curve (((n : ℚ) + 1) / (samples : ℚ)))
           (buildState curve dist samples n).2.2.2,
       curve (((n : ℚ) + 1) / (samples : ℚ))) := by
  unfold buildState
  rw [List.range_succ, List.foldl_append, List.foldl_cons, List.foldl_nil]
  push_cast
  rfl

theorem buildState_spec {P : Type} (curve : ℚ → P) (dist : P → P → ℚ)
    (samples : ℕ) (n : ℕ) :
    (buildState curve dist samples n).1.size = n + 1 ∧
    (buildState curve dist samples n).2.1.size = n + 1 ∧
    (∀ i, i ≤ n → (buildState curve dist samples n).1.getD i 0 = (i : ℚ) / (samples : ℚ)) ∧
    (∀ i, i ≤ n → (buildState curve dist samples n).2.1.getD i 0 =
        ∑ k ∈ Finset.range i, chord curve dist samples k) ∧
    (buildState curve dist samples n).2.2.1 =
        ∑ k ∈ Finset.range n, chord curve dist samples k ∧
    (buildState curve dist samples n).2.2.2 = curve ((n : ℚ) / (samples : ℚ)) := by
  induction n with
  | zero =>
    refine ⟨rfl, rfl, ?_, ?_, by simp [buildState], by simp [buildState]⟩
    · intro i hi
      interval_cases i
      simp [buildState]
    · intro i hi
      interval_cases i
      simp [buildState]
  | succ n IH =>
    obtain ⟨hu, hsz, hui, hsi, hacc, hprev⟩ := IH
    rw [buildState_succ]
    refine ⟨by simp [Array.size_push, hu], by simp [Array.size_push, hsz], ?_, ?_, ?_,
      by norm_cast⟩
    · intro i hi
      rw [getD_push, hu]
      by_cases he : i = n + 1
      · subst he
        rw [if_pos rfl]
        push_cast
        ring
      · rw [if_neg he]
        exact hui i (by omega)
    · intro i hi
      rw [getD_push, hsz]
      by_cases he : i = n + 1
      · subst he
        rw [if_pos rfl, hacc, hprev, Finset.sum_range_succ]
        rfl
      · rw [if_neg he]
        exact hsi i (by omega)
    · rw [hacc, hprev, Finset.sum_range_succ]
      rfl

theorem bisectLoop_spec (s : Array ℚ) (x : ℚ) :
    ∀ d lo hi, hi - lo ≤ d → lo < hi → s.getD lo 0 ≤ x → x < s.getD hi 0 →
      lo ≤ (bisectLoop s x lo hi).1 ∧
      (bisectLoop s x lo hi).1 + 1 = (bisectLoop s x lo hi).2 ∧
      (bisectLoop s x lo hi).2 ≤ hi ∧
      s.getD (bisectLoop s x lo hi).1 0 ≤ x ∧
      x < s.getD (bisectLoop s x lo hi).2 0 := by
  intro d
  induction d with
  | zero =>
    intro lo hi hd hlt _ _
    omega
  | succ d IH =>
    intro lo hi hd hlt hlo hhi
    by_cases hc : lo + 1 < hi
    · have heq : bisectLoop s x lo hi =
          if s.getD ((lo + hi) / 2) 0 ≤ x then bisectLoop s x ((lo + hi) / 2) hi
          else bisectLoop s x lo ((lo + hi) / 2) := by
        conv_lhs => unfold bisectLoop
        rw [dif_pos hc]
      have hmid1 : lo + 1 ≤ (lo + hi) / 2 := by omega
      have hmid2 : (lo + hi) / 2 + 1 ≤ hi := by omega
      by_cases hsm : s.getD ((lo + hi) / 2) 0 ≤ x
      · rw [heq, if_pos hsm]
        have h := IH ((lo + hi) / 2) hi (by omega) (by omega) hsm hhi
        exact ⟨le_trans (by omega) h.1, h.2.1, h.2.2.1, h.2.2.2⟩
      · rw [heq, if_neg hsm]
        push_neg at hsm
        have h := IH lo ((lo + hi) / 2) (by omega) (by omega) hlo hsm
        exact ⟨h.1, h.2.1, le_trans h.2.2.1 (by omega), h.2.2.2⟩
    · have heq : bisectLoop s x lo hi = (lo, hi) := by
        unfold bisectLoop
        rw [dif_neg hc]
      rw [heq]
      exact ⟨le_refl _, by omega, le_refl _, hlo, hhi⟩

theorem lerp_bounds {a b t : ℚ} (hab : a ≤ b) (h0 : 0 ≤ t) (h1 : t ≤ 1) :
    a ≤ lerp a b t ∧ lerp a b t ≤ b := by
  unfold lerp
  constructor
  · nlinarith
  · nlinarith

/-- C1: for every closed curve (sampling function plus nonnegative metric)
and every `samples ≥ 1`, `buildArcLengthLUT` returns arrays `u` and `s` of
length `samples+1` with `u[i] = i/samples`, `s[0] = 0`, `s` nondecreasing,
and `L = s[samples]` the sum of the chord lengths between consecutive
sampled points; and for every `sVal` (negative included), `uFromS` first
wraps `sVal` into `[0, L)` and returns a value in `[0, 1]` obtained by
linear interpolation between the two LUT entries bracketing the wrapped
arc length. -/
theorem C1_buildArcLengthLUT_uFromS {P : Type} (curve : ℚ → P)
    (dist : P → P → ℚ) (samples : ℕ) (lut : LUT)
    (hs : 1 ≤ samples) (hd : ∀ a b, 0 ≤ dist a b)
    (hlut : lut = buildArcLengthLUT curve dist samples) :
    lut.u.size = samples + 1 ∧
    lut.s.size = samples + 1 ∧
    (∀ i, i ≤ samples → lut.u.getD i 0 = (i : ℚ) / (samples : ℚ)) ∧
    lut.s.getD 0 0 = 0 ∧
    (∀ i, i < samples → lut.s.getD i 0 ≤ lut.s.getD (i + 1) 0) ∧
    lut.L = lut.s.getD samples 0 ∧
    lut.L = ∑ k ∈ Finset.range samples, chord curve dist samples k ∧
    (∀ sVal : ℚ, 0 < lut.L →
      (0 ≤ jsWrap sVal lut.L ∧ jsWrap sVal lut.L < lut.L) ∧
      (0 ≤ uFromS lut sVal ∧ uFromS lut sVal ≤ 1) ∧
      ∃ lo, lo < samples ∧
        lut.s.getD lo 0 ≤ jsWrap sVal lut.L ∧
        jsWrap sVal lut.L < lut.s.getD (lo + 1) 0 ∧
        uFromS lut sVal =
          lerp (lut.u.getD lo 0) (lut.u.getD (lo + 1) 0)
            ((jsWrap sVal lut.L - lut.s.getD lo 0) /
              (lut.s.getD (lo + 1) 0 - lut.s.getD lo 0))) := by
  subst hlut
  obtain ⟨hu, hsz, hui, hsi, hacc, hprev⟩ := buildState_spec curve dist samples samples
  have eu : (buildArcLengthLUT curve dist samples).u =
      (buildState curve dist samples samples).1 := rfl
  have es : (buildArcLengthLUT curve dist samples).s =
      (buildState curve dist samples samples).2.1 := rfl
  have eL : (buildArcLengthLUT curve dist samples).L =
      (buildState curve dist samples samples).2.2.1 := rfl
  have husize : (buildArcLengthLUT curve dist samples).u.size = samples + 1 := by
    rw [eu]; exact hu
  have hssize : (buildArcLengthLUT curve dist samples).s.size = samples + 1 := by
    rw [es]; exact hsz
  have hugetD : ∀ i, i ≤ samples →
      (buildArcLengthLUT curve dist samples).u.getD i 0 = (i : ℚ) / (samples : ℚ) := by
    intro i hi; rw [eu]; exact hui i hi
  have hsgetD : ∀ i, i ≤ samples →
      (buildArcLengthLUT curve dist samples).s.getD i 0 =
        ∑ k ∈ Finset.range i, chord curve dist samples k := by
    intro i hi; rw [es]; exact hsi i hi
  have hLsum : (buildArcLengthLUT curve dist samples).L =
      ∑ k ∈ Finset.range samples, chord curve dist samples k := by
    rw [eL]; exact hacc
  have hmono : ∀ i, i < samples →
      (buildArcLengthLUT curve dist samples).s.getD i 0 ≤
        (buildArcLengthLUT curve dist samples).s.getD (i + 1) 0 := by
    intro i hi
    rw [hsgetD i (by omega), hsgetD (i + 1) (by omega), Finset.sum_range_succ]
    have := hd (curve (((i : ℚ) + 1) / (samples : ℚ))) (curve ((i : ℚ) / (samples : ℚ)))
    unfold chord
    linarith
  refine ⟨husize, hssize, hugetD, by rw [hsgetD 0 (by omega)]; simp, hmono,
    by rw [hLsum, hsgetD samples le_rfl], hLsum, ?_⟩
  intro sVal hL
  set B := buildArcLengthLUT curve dist samples with hB
  set x := jsWrap sVal B.L with hx
  have hw : 0 ≤ x ∧ x < B.L := jsWrap_mem hL
  have hsm1 : B.s.size - 1 = samples := by rw [hssize]; omega
  have hpre1 : B.s.getD 0 0 ≤ x := by
    rw [hsgetD 0 (by omega)]
    simpa using hw.1
  have hpre2 : x < B.s.getD samples 0 := by
    rw [hsgetD samples le_rfl, ← hLsum]
    exact hw.2
  have hbs := bisectLoop_spec B.s x samples 0 samples (by omega) (by omega) hpre1 hpre2
  set r := bisectLoop B.s x 0 samples with hr
  obtain ⟨hr1, hr2, hr3, hr4, hr5⟩ := hbs
  have hlo : r.1 < samples := by omega
  have hEq : uFromS B sVal =
      lerp (B.u.getD r.1 0) (B.u.getD r.2 0)
        ((x - B.s.getD r.1 0) / jsOr (B.s.getD r.2 0 - B.s.getD r.1 0) 1) := by
    simp only [uFromS]
    rw [hsm1, ← hx, ← hr]
  have hdenpos : 0 < B.s.getD r.2 0 - B.s.getD r.1 0 := by
    have := lt_of_le_of_lt hr4 hr5
    linarith
  have hjsOr : jsOr (B.s.getD r.2 0 - B.s.getD r.1 0) 1 =
      B.s.getD r.2 0 - B.s.getD r.1 0 := by
    unfold jsOr
    rw [if_neg (by linarith)]
  have ht0 : 0 ≤ (x - B.s.getD r.1 0) / (B.s.getD r.2 0 - B.s.getD r.1 0) := by
    apply div_nonneg (by linarith) (by linarith)
  have ht1 : (x - B.s.getD r.1 0) / (B.s.getD r.2 0 - B.s.getD r.1 0) ≤ 1 := by
    rw [div_le_one hdenpos]
    linarith
  have hsampN : 0 < samples := by omega
  have hsamp0 : (0 : ℚ) < (samples : ℚ) := by exact_mod_cast hsampN
  have hulo : B.u.getD r.1 0 = (r.1 : ℚ) / (samples : ℚ) := hugetD r.1 (by omega)
  have huhi : B.u.getD r.2 0 = ((r.1 : ℚ) + 1) / (samples : ℚ) := by
    have h := hugetD r.2 (by omega)
    rw [h, ← hr2]
    push_cast
    ring_nf
  have huab : B.u.getD r.1 0 ≤ B.u.getD r.2 0 := by
    rw [hulo, huhi]
    gcongr
    linarith
  have hu0 : 0 ≤ B.u.getD r.1 0 := by
    rw [hulo]
    positivity
  have hu1 : B.u.getD r.2 0 ≤ 1 := by
    rw [huhi, div_le_one hsamp0]
    have : (r.1 : ℚ) + 1 ≤ (samples : ℚ) := by exact_mod_cast hlo
    linarith
  have hlb := lerp_bounds huab ht0 ht1
  refine ⟨⟨hw.1, hw.2⟩, ⟨?_, ?_⟩, r.1, hlo, hr4, ?_, ?_⟩
  · rw [hEq, hjsOr]
    linarith [hlb.1]
  · rw [hEq, hjsOr]
    linarith [hlb.2]
  · rw [hr2]
    exact hr5
  · rw [hr2, hEq, hjsOr]

theorem C1_witness :
    (buildArcLengthLUT (fun t : ℚ => t)
        (fun a b => if a ≤ b then b - a else a - b) 1).u.size = 1 + 1 ∧
    0 ≤ uFromS (buildArcLengthLUT (fun t : ℚ => t)
        (fun a b => if a ≤ b then b - a else a - b) 1) (-3) ∧
    uFromS (buildArcLengthLUT (fun t : ℚ => t)
        (fun a b => if a ≤ b then b - a else a - b) 1) (-3) ≤ 1 := by
  have h := C1_buildArcLengthLUT_uFromS (fun t : ℚ => t)
    (fun a b => if a ≤ b then b - a else a - b) 1 _ (le_refl 1)
    (fun a b => by dsimp only; split <;> linarith) rfl
  have hL : (0 : ℚ) <
      (buildArcLengthLUT (fun t : ℚ => t)
        (fun a b => if a ≤ b then b - a else a - b) 1).L := by
    have h1 : (buildArcLengthLUT (fun t : ℚ => t)
        (fun a b => if a ≤ b then b - a else a - b) 1).L = 1 := by
      simp [buildArcLengthLUT, buildState, List.range_succ]
    rw [h1]
    norm_num
  have h8 := h.2.2.2.2.2.2.2 (-3) hL
  exact ⟨h.1, h8.2.1.1, h8.2.1.2⟩

/-- C9: two generators created by `mulberry32` with the same 32-bit seed
produce identical output sequences, and every produced value lies in
`[0, 1)`. -/
theorem C9_mulberry32_deterministic_range :
    (∀ s1 s2 : ℤ, 0 ≤ s1 → s1 < 2 ^ 32 → s1 = s2 →
      ∀ n, mulberry32 s1 n = mulberry32 s2 n) ∧
    (∀ (seed : ℤ) (n : ℕ), 0 ≤ mulberry32 seed n ∧ mulberry32 seed n < 1) := by
  constructor
  · rintro s1 s2 _ _ rfl n
    rfl
  · intro seed n
    induction n generalizing seed with
    | zero => exact mulberry32Step_mem seed
    | succ n IH => exact IH _

/-- C3: after a rain-particle frame update the head's y-coordinate is at
least `groundY`: when velocity integration stays at or above `groundY` the
integrated position is kept unchanged, and when it falls below, the
particle is repositioned to `y = groundY + areaHeight` with the new `x`,
`z` inside the disc of radius `areaRadius` around the origin. -/
theorem C3_rain_particle_ground (cosF sinF sqrtF : ℚ → ℚ) (mathPi : ℚ)
    (areaRadius areaHeight groundY dtRaw : ℚ) (p v : Vec3) (rt rr : ℚ)
    (hah : 0 ≤ areaHeight)
    (htrig : ∀ θ, cosF θ ^ 2 + sinF θ ^ 2 = 1)
    (hrr1 : 0 ≤ rr) (hrr2 : rr < 1)
    (hsq : ∀ q, 0 ≤ q → q < 1 → 0 ≤ sqrtF q ∧ sqrtF q ≤ 1) :
    groundY ≤ (rainFrameParticle cosF sinF sqrtF mathPi areaRadius areaHeight
      groundY dtRaw p v rt rr).y ∧
    (groundY ≤ p.y + v.y * min dtRaw 0.05 →
      rainFrameParticle cosF sinF sqrtF mathPi areaRadius areaHeight
        groundY dtRaw p v rt rr =
      ⟨p.x + v.x * min dtRaw 0.05, p.y + v.y * min dtRaw 0.05,
        p.z + v.z * min dtRaw 0.05⟩) ∧
    (p.y + v.y * min dtRaw 0.05 < groundY →
      (rainFrameParticle cosF sinF sqrtF mathPi areaRadius areaHeight
        groundY dtRaw p v rt rr).y = groundY + areaHeight ∧
      (rainFrameParticle cosF sinF sqrtF mathPi areaRadius areaHeight
          groundY dtRaw p v rt rr).x ^ 2 +
        (rainFrameParticle cosF sinF sqrtF mathPi areaRadius areaHeight
          groundY dtRaw p v rt rr).z ^ 2 ≤ areaRadius ^ 2) := by
  unfold rainFrameParticle
  simp only
  by_cases hfall : p.y + v.y * min dtRaw 0.05 < groundY
  · rw [if_pos hfall]
    obtain ⟨hs0, hs1⟩ := hsq rr hrr1 hrr2
    refine ⟨by dsimp only; linarith, fun habs => absurd hfall (by linarith), fun _ => ⟨rfl, ?_⟩⟩
    have he : (cosF (rt * mathPi * 2) * (sqrtF rr * areaRadius)) ^ 2 +
        (sinF (rt * mathPi * 2) * (sqrtF rr * areaRadius)) ^ 2 =
        (cosF (rt * mathPi * 2) ^ 2 + sinF (rt * mathPi * 2) ^ 2) *
          (sqrtF rr * areaRadius) ^ 2 := by ring
    dsimp only
    rw [he, htrig, one_mul]
    have hs2 : sqrtF rr ^ 2 ≤ 1 := by nlinarith
    nlinarith [sq_nonneg areaRadius, hs2]
  · rw [if_neg hfall]
    push_neg at hfall
    exact ⟨hfall, fun _ => rfl, fun habs => absurd habs (by linarith)⟩

theorem C3_witness :
    (-8 : ℚ) ≤ (rainFrameParticle (fun _ => 1) (fun _ => 0) (fun q => q)
      3 60 40 (-8) 1 ⟨0, 0, 0⟩ ⟨0, -300, 0⟩ 0 (1 / 2)).y := by
  exact (C3_rain_particle_ground (fun _ => 1) (fun _ => 0) (fun q => q)
    3 60 40 (-8) 1 ⟨0, 0, 0⟩ ⟨0, -300, 0⟩ 0 (1 / 2)
    (by norm_num) (fun θ => by norm_num) (by norm_num) (by norm_num)
    (fun q h1 h2 => ⟨h1, h2.le⟩)).1

theorem subdivPass_spec (sqrtF : ℚ → ℚ) (rnd : ℕ → ℚ) (disp : ℚ) :
    ∀ (rest : List Vec3) (p : Vec3) (ix : ℕ),
      (subdivPass sqrtF rnd disp (p :: rest) ix).1.length =
        2 * (p :: rest).length - 1 ∧
      (subdivPass sqrtF rnd disp (p :: rest) ix).1.head? = some p ∧
      (subdivPass sqrtF rnd disp (p :: rest) ix).1.getLast? =
        (p :: rest).getLast? := by
  intro rest
  induction rest with
  | nil =>
    intro p ix
    simp [subdivPass]
  | cons p1 rest IH =>
    intro p ix
    obtain ⟨hlen, hhead, hlast⟩ := IH p1 (midDisplaced sqrtF rnd disp p p1 ix).2
    have he : subdivPass sqrtF rnd disp (p :: p1 :: rest) ix =
        (p :: (midDisplaced sqrtF rnd disp p p1 ix).1 ::
          (subdivPass sqrtF rnd disp (p1 :: rest)
            (midDisplaced sqrtF rnd disp p p1 ix).2).1,
         (subdivPass sqrtF rnd disp (p1 :: rest)
            (midDisplaced sqrtF rnd disp p p1 ix).2).2) := rfl
    rw [he]
    refine ⟨?_, rfl, ?_⟩
    · simp only [List.length_cons]
      simp only [List.length_cons] at hlen
      omega
    · rw [List.getLast?_cons_cons]
      rcases hq : (subdivPass sqrtF rnd disp (p1 :: rest)
          (midDisplaced sqrtF rnd disp p p1 ix).2).1 with _ | ⟨c, cs⟩
      · rw [hq] at hlen
        simp at hlen
        omega
      · rw [List.getLast?_cons_cons, ← hq, hlast]
        exact (List.getLast?_cons_cons).symm

theorem boltIter_spec (sqrtF : ℚ → ℚ) (rnd : ℕ → ℚ) (roughness : ℚ) :
    ∀ (n : ℕ) (pts : List Vec3) (disp : ℚ) (ix : ℕ), pts ≠ [] →
      (boltIter sqrtF rnd roughness n pts disp ix).length =
        2 ^ n * (pts.length - 1) + 1 ∧
      (boltIter sqrtF rnd roughness n pts disp ix).head? = pts.head? ∧
      (boltIter sqrtF rnd roughness n pts disp ix).getLast? = pts.getLast? := by
  intro n
  induction n with
  | zero =>
    intro pts disp ix hne
    rcases pts with _ | ⟨p, rest⟩
    · exact absurd rfl hne
    · refine ⟨?_, rfl, rfl⟩
      simp only [boltIter, List.length_cons, pow_zero]
      omega
  | succ n IH =>
    intro pts disp ix hne
    rcases pts with _ | ⟨p, rest⟩
    · exact absurd rfl hne
    · obtain ⟨hlen, hhead, hlast⟩ := subdivPass_spec sqrtF rnd disp rest p ix
      have he : boltIter sqrtF rnd roughness (n + 1) (p :: rest) disp ix =
          boltIter sqrtF rnd roughness n
            (subdivPass sqrtF rnd disp (p :: rest) ix).1 (disp * roughness)
            (subdivPass sqrtF rnd disp (p :: rest) ix).2 := rfl
      have hne2 : (subdivPass sqrtF rnd disp (p :: rest) ix).1 ≠ [] := by
        intro habs
        rw [habs] at hlen
        simp at hlen
        omega
      obtain ⟨ihlen, ihhead, ihlast⟩ := IH
        (subdivPass sqrtF rnd disp (p :: rest) ix).1 (disp * roughness)
        (subdivPass sqrtF rnd disp (p :: rest) ix).2 hne2
      rw [he]
      refine ⟨?_, by rw [ihhead, hhead]; rfl, by rw [ihlast, hlast]⟩
      rw [ihlen, hlen]
      simp only [List.length_cons]
      have h2 : 2 * (rest.length + 1) - 1 - 1 = 2 * rest.length := by omega
      have h3 : rest.length + 1 - 1 = rest.length := by omega
      rw [h2, h3, pow_succ]
      ring

/-- C4: for distinct endpoints `a`, `b`, any `subdivisions = n ≥ 0` and any
stream of random draws in `[0, 1)`, the mid-point-displacement bolt
generator returns exactly `2^n + 1` points, the first equal to `a` and the
last equal to `b`. -/
theorem C4_makeBoltPoints_endpoints (sqrtF : ℚ → ℚ) (a b : Vec3)
    (subdivisions : ℕ) (sway roughness : ℚ) (rnd : ℕ → ℚ)
    (hab : a ≠ b) (hrnd : ∀ i, 0 ≤ rnd i ∧ rnd i < 1) :
    (makeBoltPointsRand sqrtF a b subdivisions sway roughness rnd).length =
      2 ^ subdivisions + 1 ∧
    (makeBoltPointsRand sqrtF a b subdivisions sway roughness rnd).head? =
      some a ∧
    (makeBoltPointsRand sqrtF a b subdivisions sway roughness rnd).getLast? =
      some b := by
  unfold makeBoltPointsRand
  obtain ⟨hlen, hhead, hlast⟩ := boltIter_spec sqrtF rnd roughness subdivisions
    [a, b] (sway * sqrtF ((b.sub a).lengthSq) * 0.05) 0 (by simp)
  refine ⟨?_, by rw [hhead]; rfl, by rw [hlast]; rfl⟩
  rw [hlen]
  simp

theorem C4_witness :
    (makeBoltPointsRand (fun q => q) ⟨0, 0, 0⟩ ⟨0, 0, 1⟩ 2 1.2 0.62
      (fun _ => 0)).length = 2 ^ 2 + 1 ∧
    (makeBoltPointsRand (fun q => q) ⟨0, 0, 0⟩ ⟨0, 0, 1⟩ 2 1.2 0.62
      (fun _ => 0)).head? = some ⟨0, 0, 0⟩ ∧
    (makeBoltPointsRand (fun q => q) ⟨0, 0, 0⟩ ⟨0, 0, 1⟩ 2 1.2 0.62
      (fun _ => 0)).getLast? = some ⟨0, 0, 1⟩ :=
  C4_makeBoltPoints_endpoints (fun q => q) ⟨0, 0, 0⟩ ⟨0, 0, 1⟩ 2 1.2 0.62
    (fun _ => 0) (by decide) (fun _ => by norm_num)

theorem enforceGo_spec (minStep : ℚ) (rnd : ℕ → ℚ) (hms : 0 < minStep)
    (hrnd : ∀ i, 0 ≤ rnd i) :
    ∀ (rest : List Vec3) (lastY : ℚ) (ix : ℕ),
      (enforceGo minStep rnd lastY ix rest).1.length = rest.length ∧
      (∀ j : ℕ,
        ((enforceGo minStep rnd lastY ix rest).1[j]?).map Vec3.x =
          (rest[j]?).map Vec3.x ∧
        ((enforceGo minStep rnd lastY ix rest).1[j]?).map Vec3.z =
          (rest[j]?).map Vec3.z) ∧
      List.Chain (fun a b => b ≤ a - minStep) lastY
        ((enforceGo minStep rnd lastY ix rest).1.map Vec3.y) := by
  intro rest
  induction rest with
  | nil =>
    intro lastY ix
    refine ⟨rfl, fun j => ⟨by simp [enforceGo], by simp [enforceGo]⟩,
      List.Chain.nil⟩
  | cons p rest IH =>
    intro lastY ix
    by_cases hc : lastY - minStep ≤ p.y
    · have he : enforceGo minStep rnd lastY ix (p :: rest) =
          ((⟨p.x, lastY - (minStep + rnd ix * 0.04), p.z⟩ : Vec3) ::
            (enforceGo minStep rnd (lastY - (minStep + rnd ix * 0.04))
              (ix + 1) rest).1,
           (enforceGo minStep rnd (lastY - (minStep + rnd ix * 0.04))
              (ix + 1) rest).2) := by
        simp only [enforceGo]
        rw [if_pos hc]
      obtain ⟨ihlen, ihxz, ihchain⟩ :=
        IH (lastY - (minStep + rnd ix * 0.04)) (ix + 1)
      rw [he]
      refine ⟨by simp [ihlen], ?_, ?_⟩
      · intro j
        rcases j with _ | j
        · exact ⟨by simp, by simp⟩
        · simpa using ihxz j
      · refine List.Chain.cons ?_ ihchain
        have := hrnd ix
        dsimp only
        linarith
    · have he : enforceGo minStep rnd lastY ix (p :: rest) =
          (p :: (enforceGo minStep rnd p.y ix rest).1,
           (enforceGo minStep rnd p.y ix rest).2) := by
        simp only [enforceGo]
        rw [if_neg hc]
      obtain ⟨ihlen, ihxz, ihchain⟩ := IH p.y ix
      rw [he]
      push_neg at hc
      refine ⟨by simp [ihlen], ?_, List.Chain.cons (by linarith) ihchain⟩
      intro j
      rcases j with _ | j
      · exact ⟨by simp, by simp⟩
      · simpa using ihxz j

/-- C8: for a non-empty input and `minStep > 0`, `enforceDownward` keeps
the length, the first point and every point's x and z coordinates, and
forces each later point's y-coordinate to be at most the previous returned
point's y minus `minStep`, for any random draws in `[0, 1)`. -/
theorem C8_enforceDownward_descending (pts : List Vec3) (minStep : ℚ)
    (rnd : ℕ → ℚ) (hne : pts ≠ []) (hms : 0 < minStep)
    (hrnd : ∀ i, 0 ≤ rnd i ∧ rnd i < 1) :
    (enforceDownward pts minStep rnd).length = pts.length ∧
    (enforceDownward pts minStep rnd).head? = pts.head? ∧
    (∀ j : ℕ,
      ((enforceDownward pts minStep rnd)[j]?).map Vec3.x =
        (pts[j]?).map Vec3.x ∧
      ((enforceDownward pts minStep rnd)[j]?).map Vec3.z =
        (pts[j]?).map Vec3.z) ∧
    List.Chain' (fun a b => b ≤ a - minStep)
      ((enforceDownward pts minStep rnd).map Vec3.y) := by
  rcases pts with _ | ⟨p, rest⟩
  · exact absurd rfl hne
  · obtain ⟨hlen, hxz, hchain⟩ :=
      enforceGo_spec minStep rnd hms (fun i => (hrnd i).1) rest p.y 0
    have he : enforceDownward (p :: rest) minStep rnd =
        p :: (enforceGo minStep rnd p.y 0 rest).1 := rfl
    rw [he]
    refine ⟨by simp [hlen], rfl, ?_, ?_⟩
    · intro j
      rcases j with _ | j
      · exact ⟨by simp, by simp⟩
      · simpa using hxz j
    · exact hchain

theorem C8_witness :
    (enforceDownward [⟨0, 5, 0⟩, ⟨1, 5, 2⟩] (1 / 50) (fun _ => 0)).length = 2 ∧
    List.Chain' (fun a b => b ≤ a - 1 / 50)
      ((enforceDownward [⟨0, 5, 0⟩, ⟨1, 5, 2⟩] (1 / 50) (fun _ => 0)).map
        Vec3.y) := by
  have h := C8_enforceDownward_descending [⟨0, 5, 0⟩, ⟨1, 5, 2⟩] (1 / 50)
    (fun _ => 0) (by simp) (by norm_num) (fun _ => by norm_num)
  exact ⟨h.1, h.2.2.2⟩

theorem ceil120_pos {remaining : ℚ} (h : 0 < remaining) :
    0 < (⌈remaining * 120⌉).toNat := by
  have h1 : (0 : ℤ) < ⌈remaining * 120⌉ := by
    rw [Int.lt_ceil]
    push_cast
    positivity
  omega

theorem ceil120_decrease {remaining : ℚ} (h : 0 < remaining) :
    (⌈(remaining - min remaining (1 / 120)) * 120⌉).toNat <
      (⌈remaining * 120⌉).toNat := by
  rcases le_or_lt remaining (1 / 120) with hle | hlt
  · rw [min_eq_left hle]
    have h0 : remaining - remaining = 0 := by ring
    rw [h0, zero_mul, Int.ceil_zero]
    have := ceil120_pos h
    omega
  · rw [min_eq_right hlt.le]
    have hc : ⌈(remaining - 1 / 120) * 120⌉ = ⌈remaining * 120⌉ - 1 := by
      have he : (remaining - 1 / 120) * 120 = remaining * 120 - 1 := by ring
      rw [he, Int.ceil_sub_one]
    have h2 : (1 : ℤ) < ⌈remaining * 120⌉ := by
      rw [Int.lt_ceil]
      push_cast
      nlinarith
    rw [hc]
    omega

theorem carLoop_eq_pos (lut : LUT) (tangentY : ℚ → ℚ) (g drag minV maxV : ℚ)
    {remaining : ℚ} (v s : ℚ) (h : 0 < remaining) :
    carLoop lut tangentY g drag minV maxV remaining v s =
      carLoop lut tangentY g drag minV maxV
        (remaining - min remaining (1 / 120))
        (clampV (v + (-g * tangentY (uFromS lut s) - drag * v) *
            min remaining (1 / 120)) minV maxV)
        (jsRem (s + clampV (v + (-g * tangentY (uFromS lut s) - drag * v) *
            min remaining (1 / 120)) minV maxV * min remaining (1 / 120))
          lut.L) := by
  conv_lhs => unfold carLoop
  rw [dif_pos h]

theorem carLoop_eq_nonpos (lut : LUT) (tangentY : ℚ → ℚ)
    (g drag minV maxV : ℚ) {remaining : ℚ} (v s : ℚ) (h : ¬ 0 < remaining) :
    carLoop lut tangentY g drag minV maxV remaining v s = (v, s) := by
  unfold carLoop
  rw [dif_neg h]

theorem carLoop_inv (lut : LUT) (tangentY : ℚ → ℚ) (g drag minV maxV : ℚ)
    (hmm : minV ≤ maxV) (hminpos : 0 < minV) (hL : 0 < lut.L) :
    ∀ (d : ℕ) (remaining v s : ℚ), (⌈remaining * 120⌉).toNat ≤ d →
      minV ≤ v → v ≤ maxV → 0 ≤ s → s < lut.L →
      (minV ≤ (carLoop lut tangentY g drag minV maxV remaining v s).1 ∧
       (carLoop lut tangentY g drag minV maxV remaining v s).1 ≤ maxV) ∧
      (0 ≤ (carLoop lut tangentY g drag minV maxV remaining v s).2 ∧
       (carLoop lut tangentY g drag minV maxV remaining v s).2 < lut.L) := by
  intro d
  induction d with
  | zero =>
    intro remaining v s hd hv1 hv2 hs1 hs2
    have hr : ¬ 0 < remaining := by
      intro hpos
      have := ceil120_pos hpos
      omega
    rw [carLoop_eq_nonpos lut tangentY g drag minV maxV v s hr]
    exact ⟨⟨hv1, hv2⟩, hs1, hs2⟩
  | succ d IH =>
    intro remaining v s hd hv1 hv2 hs1 hs2
    by_cases hpos : 0 < remaining
    · rw [carLoop_eq_pos lut tangentY g drag minV maxV v s hpos]
      have hstep : 0 < min remaining (1 / 120) := lt_min hpos (by norm_num)
      have hv1' : minV ≤ clampV (v + (-g * tangentY (uFromS lut s) - drag * v) *
          min remaining (1 / 120)) minV maxV := le_max_left _ _
      have hv2' : clampV (v + (-g * tangentY (uFromS lut s) - drag * v) *
          min remaining (1 / 120)) minV maxV ≤ maxV :=
        max_le hmm (min_le_left _ _)
      have hjs := jsRem_nonneg_lt
        (x := s + clampV (v + (-g * tangentY (uFromS lut s) - drag * v) *
          min remaining (1 / 120)) minV maxV * min remaining (1 / 120))
        (by nlinarith) hL
      have hmeas := ceil120_decrease hpos
      exact IH _ _ _ (by omega) hv1' hv2' hjs.1 hjs.2
    · rw [carLoop_eq_nonpos lut tangentY g drag minV maxV v s hpos]
      exact ⟨⟨hv1, hv2⟩, hs1, hs2⟩

theorem carSubSteps_eq_pos {remaining : ℚ} (h : 0 < remaining) :
    carSubSteps remaining =
      min remaining (1 / 120) ::
        carSubSteps (remaining - min remaining (1 / 120)) := by
  conv_lhs => unfold carSubSteps
  rw [dif_pos h]

theorem carSubSteps_eq_nonpos {remaining : ℚ} (h : ¬ 0 < remaining) :
    carSubSteps remaining = [] := by
  unfold carSubSteps
  rw [dif_neg h]

theorem carSubSteps_bounds :
    ∀ (d : ℕ) (remaining : ℚ), (⌈remaining * 120⌉).toNat ≤ d →
      (∀ st ∈ carSubSteps remaining, 0 < st ∧ st ≤ 1 / 120) ∧
      (0 ≤ remaining → (carSubSteps remaining).sum = remaining) := by
  intro d
  induction d with
  | zero =>
    intro remaining hd
    have hr : ¬ 0 < remaining := by
      intro hpos
      have := ceil120_pos hpos
      omega
    rw [carSubSteps_eq_nonpos hr]
    refine ⟨by simp, fun h0 => ?_⟩
    push_neg at hr
    simp [le_antisymm hr h0]
  | succ d IH =>
    intro remaining hd
    by_cases hpos : 0 < remaining
    · rw [carSubSteps_eq_pos hpos]
      have hmeas := ceil120_decrease hpos
      have h := IH (remaining - min remaining (1 / 120)) (by omega)
      constructor
      · intro st hst
        rcases List.mem_cons.mp hst with he | hm
        · subst he
          exact ⟨lt_min hpos (by norm_num), min_le_right _ _⟩
        · exact h.1 st hm
      · intro _
        rw [List.sum_cons, h.2 (by
          rcases le_or_lt remaining (1 / 120) with hle | hlt
          · rw [min_eq_left hle]; linarith
          · rw [min_eq_right hlt.le]; linarith)]
        ring
    · rw [carSubSteps_eq_nonpos hpos]
      refine ⟨by simp, fun h0 => ?_⟩
      push_neg at hpos
      simp [le_antisymm hpos h0]

/-- C2: one frame of the coaster car's update, for any nonnegative frame
time and speed scale, with `minV ≤ maxV`, `minV > 0` and `lut.L > 0`,
keeps the velocity in `[minV, maxV]` and the arc-length position in
`[0, lut.L)`; the effective frame time is clamped to at most 0.05 s and is
consumed in positive sub-steps of at most 1/120 s each, summing to the
whole effective frame time. -/
theorem C2_CoasterSpriteCar_frame_invariant (lut : LUT) (tangentY : ℚ → ℚ)
    (g drag minV maxV speedScale dtRaw v s : ℚ)
    (hdt : 0 ≤ dtRaw) (hss : 0 ≤ speedScale) (hmm : minV ≤ maxV)
    (hminpos : 0 < minV) (hL : 0 < lut.L)
    (hv1 : minV ≤ v) (hv2 : v ≤ maxV) (hs1 : 0 ≤ s) (hs2 : s < lut.L) :
    (minV ≤ (carUpdate lut tangentY g drag minV maxV speedScale dtRaw v s).1 ∧
     (carUpdate lut tangentY g drag minV maxV speedScale dtRaw v s).1 ≤ maxV) ∧
    (0 ≤ (carUpdate lut tangentY g drag minV maxV speedScale dtRaw v s).2 ∧
     (carUpdate lut tangentY g drag minV maxV speedScale dtRaw v s).2 < lut.L) ∧
    min dtRaw 0.05 ≤ 0.05 ∧
    (∀ st ∈ carSubSteps (min dtRaw 0.05 * speedScale), 0 < st ∧ st ≤ 1 / 120) ∧
    (carSubSteps (min dtRaw 0.05 * speedScale)).sum =
      min dtRaw 0.05 * speedScale := by
  have hrem : 0 ≤ min dtRaw 0.05 * speedScale :=
    mul_nonneg (le_min hdt (by norm_num)) hss
  have hsub := carSubSteps_bounds (⌈min dtRaw 0.05 * speedScale * 120⌉).toNat
    (min dtRaw 0.05 * speedScale) le_rfl
  have hinv := carLoop_inv lut tangentY g drag minV maxV hmm hminpos hL
    (⌈min dtRaw 0.05 * speedScale * 120⌉).toNat (min dtRaw 0.05 * speedScale)
    v s le_rfl hv1 hv2 hs1 hs2
  exact ⟨hinv.1, hinv.2, min_le_right _ _, hsub.1, hsub.2 hrem⟩

theorem C2_witness :
    (1 ≤ (carUpdate ⟨#[0, 1], #[0, 5], 5⟩ (fun _ => 0)
        3.5 0.02 1 12 1 1 1 0).1 ∧
     (carUpdate ⟨#[0, 1], #[0, 5], 5⟩ (fun _ => 0)
        3.5 0.02 1 12 1 1 1 0).1 ≤ 12) ∧
    0 ≤ (carUpdate ⟨#[0, 1], #[0, 5], 5⟩ (fun _ => 0)
        3.5 0.02 1 12 1 1 1 0).2 ∧
    (carUpdate ⟨#[0, 1], #[0, 5], 5⟩ (fun _ => 0)
        3.5 0.02 1 12 1 1 1 0).2 < (5 : ℚ) := by
  have h := C2_CoasterSpriteCar_frame_invariant ⟨#[0, 1], #[0, 5], 5⟩
    (fun _ => 0) 3.5 0.02 1 12 1 1 1 0 (by norm_num) (by norm_num)
    (by norm_num) (by norm_num) (by norm_num) (by norm_num) (by norm_num)
    (by norm_num) (by norm_num)
  exact ⟨h.1, h.2.1⟩

theorem C9_witness :
    mulberry32 12345 2 = mulberry32 12345 2 ∧
    0 ≤ mulberry32 12345 2 ∧ mulberry32 12345 2 < 1 :=
  ⟨C9_mulberry32_deterministic_range.1 12345 12345 (by norm_num) (by norm_num) rfl 2,
   C9_mulberry32_deterministic_range.2 12345 2⟩

theorem lookup_map_validateEntry (o : List (String × JSVal)) (P : JSVal)
    (l : List (String × JSVal)) (k : String) :
    List.lookup k (l.map (fun kv =>
        if (objGet o kv.1).isUndef then kv
        else (kv.1, validateKey P kv.1 (objGet o kv.1) kv.2))) =
      (List.lookup k l).map (fun fv =>
        if (objGet o k).isUndef then fv
        else validateKey P k (objGet o k) fv) := by
  induction l with
  | nil => rfl
  | cons kv l IH =>
    rcases kv with ⟨k1, v1⟩
    simp only [List.map_cons]
    by_cases hc : (objGet o k1).isUndef = true
    · rw [if_pos hc]
      by_cases hbe : k = k1
      · subst hbe
        simp [List.lookup, hc]
      · have hbeq : (k == k1) = false := beq_eq_false_iff_ne.mpr hbe
        simp [List.lookup, hbeq, IH]
    · rw [if_neg hc]
      by_cases hbe : k = k1
      · subst hbe
        simp [List.lookup, hc]
      · have hbeq : (k == k1) = false := beq_eq_false_iff_ne.mpr hbe
        simp [List.lookup, hbeq, IH]

theorem validateEnv_obj_eq (o fallback : List (String × JSVal)) :
    validateEnv (.obj o) fallback = fallback.map (fun kv =>
      if (objGet o kv.1).isUndef then kv
      else (kv.1, validateKey (objGet fallback "envPreset") kv.1
        (objGet o kv.1) kv.2)) := rfl

theorem validateKey_envPreset (P v fv : JSVal) :
    validateKey P "envPreset" v fv =
      if ALLOWED_PRESETS.contains (jsToString v) then .str (jsToString v)
      else P := by
  have h1 : strEndsWith "envPreset" "_Alpha" = false := by decide
  have h2 : BOOL_KEYS.contains "envPreset" = false := by decide
  have h3 : NUMERIC_KEYS.contains "envPreset" = false := by decide
  have h4 : ("envPreset" == "fogType") = false := by decide
  have h5 : ("envPreset" == "envPreset") = true := by decide
  unfold validateKey
  rw [h1, h2, h3, h4, h5]
  simp

theorem validateKey_fogType (P v fv : JSVal) :
    validateKey P "fogType" v fv = if v.isStr then v else fv := by
  have h1 : strEndsWith "fogType" "_Alpha" = false := by decide
  have h2 : BOOL_KEYS.contains "fogType" = false := by decide
  have h3 : NUMERIC_KEYS.contains "fogType" = false := by decide
  have h4 : ("fogType" == "fogType") = true := by decide
  have h5 : ("fogType" == "envPreset") = false := by decide
  unfold validateKey
  rw [h1, h2, h3, h4, h5]
  cases v <;> simp [isStrEq, JSVal.isStr]

theorem validateEnv_keys (obj : JSVal) (fallback : List (String × JSVal)) :
    (validateEnv obj fallback).map Prod.fst = fallback.map Prod.fst := by
  cases obj with
  | obj o =>
    rw [validateEnv_obj_eq, List.map_map]
    refine List.map_congr_left (fun kv _ => ?_)
    by_cases hc : (objGet o kv.1).isUndef = true <;> simp [hc]
  | num q => rfl
  | nan => rfl
  | str s => rfl
  | boolean b => rfl
  | null => rfl
  | undef => rfl

/-- C5 counterexample: the claim says `fogType` can only be `'linear'` or
`'exp2'`, but any other string falls through to the generic string branch
and overwrites it verbatim. -/
theorem C5_counterexample :
    List.lookup "fogType"
        (validateEnv (.obj [("fogType", JSVal.str "purple")]) defaultsEnv) =
      some (JSVal.str "purple") ∧
    JSVal.str "purple" ≠ JSVal.str "linear" ∧
    JSVal.str "purple" ≠ JSVal.str "exp2" := by
  refine ⟨rfl, by simp, by simp⟩

/-- C5 (amended): `validateEnv` returns an object with exactly the
fallback's keys; every key of the result ending in `_Alpha` holds a number
in `[0, 1]` (for the App.jsx defaults, vacuously, since no key matches
`/_Alpha$/`); `envPreset` is always one of the ten allowed preset names and
falls back to the defaults' `'lobby'` whenever the input's value does not
stringify into that list; `fogType` takes the input's value whenever that
value is a string — not only `'linear'`/`'exp2'` — and keeps the fallback's
`'linear'` otherwise; a non-object or null input yields the fallback
unchanged. -/
theorem C5_validateEnv_amended :
    (∀ (obj : JSVal) (fallback : List (String × JSVal)),
      (validateEnv obj fallback).map Prod.fst = fallback.map Prod.fst) ∧
    (∀ obj : JSVal, ∀ kv ∈ validateEnv obj defaultsEnv,
      strEndsWith kv.1 "_Alpha" = true →
        ∃ q : ℚ, kv.2 = JSVal.num q ∧ 0 ≤ q ∧ q ≤ 1) ∧
    (∀ o : List (String × JSVal),
      ∃ s : String,
        List.lookup "envPreset" (validateEnv (.obj o) defaultsEnv) =
          some (.str s) ∧ s ∈ ALLOWED_PRESETS) ∧
    (∀ (o : List (String × JSVal)) (v : JSVal),
      objGet o "envPreset" = v → v.isUndef = false →
      ALLOWED_PRESETS.contains (jsToString v) = false →
      List.lookup "envPreset" (validateEnv (.obj o) defaultsEnv) =
        some (.str "lobby")) ∧
    (∀ (o : List (String × JSVal)) (v : JSVal),
      objGet o "fogType" = v → v.isUndef = false →
      List.lookup "fogType" (validateEnv (.obj o) defaultsEnv) =
        some (if v.isStr then v else .str "linear")) ∧
    (∀ obj : JSVal, (∀ o, obj ≠ .obj o) →
      validateEnv obj defaultsEnv = defaultsEnv) := by
  have hkeysAlpha : ∀ k ∈ defaultsEnv.map Prod.fst,
      strEndsWith k "_Alpha" = false := by decide
  have hlookPreset : List.lookup "envPreset" defaultsEnv =
      some (.str "lobby") := rfl
  have hlookFog : List.lookup "fogType" defaultsEnv =
      some (.str "linear") := rfl
  have hfallPreset : objGet defaultsEnv "envPreset" = .str "lobby" := rfl
  refine ⟨validateEnv_keys, ?_, ?_, ?_, ?_, ?_⟩
  · intro obj kv hkv halpha
    have hmem : kv.1 ∈ (validateEnv obj defaultsEnv).map Prod.fst :=
      List.mem_map_of_mem Prod.fst hkv
    rw [validateEnv_keys] at hmem
    rw [hkeysAlpha kv.1 hmem] at halpha
    exact absurd halpha (by simp)
  · intro o
    rw [validateEnv_obj_eq, lookup_map_validateEntry, hlookPreset]
    by_cases hu : (objGet o "envPreset").isUndef = true
    · refine ⟨"lobby", ?_, by decide⟩
      simp [hu]
    · rw [hfallPreset]
      simp only [Option.map_some', hu, Bool.false_eq_true, if_false,
        validateKey_envPreset]
      by_cases hc : ALLOWED_PRESETS.contains
          (jsToString (objGet o "envPreset")) = true
      · refine ⟨jsToString (objGet o "envPreset"), ?_, ?_⟩
        · rw [if_pos hc]
        · simpa using hc
      · refine ⟨"lobby", ?_, by decide⟩
        rw [if_neg hc]
  · intro o v hv hu hc
    rw [validateEnv_obj_eq, lookup_map_validateEntry, hlookPreset, hv,
      hfallPreset]
    simp only [Option.map_some', hu, Bool.false_eq_true, if_false,
      validateKey_envPreset, hc]
  · intro o v hv hu
    rw [validateEnv_obj_eq, lookup_map_validateEntry, hlookFog, hv]
    simp only [Option.map_some', hu, Bool.false_eq_true, if_false,
      validateKey_fogType]
  · intro obj hno
    cases obj with
    | obj o => exact absurd rfl (hno o)
    | num q => rfl
    | nan => rfl
    | str s => rfl
    | boolean b => rfl
    | null => rfl
    | undef => rfl

theorem C5_witness :
    List.lookup "fogType"
        (validateEnv (.obj [("fogType", JSVal.num 3)]) defaultsEnv) =
      some (JSVal.str "linear") ∧
    validateEnv JSVal.null defaultsEnv = defaultsEnv := by
  constructor
  · have h := C5_validateEnv_amended.2.2.2.2.1 [("fogType", JSVal.num 3)]
      (JSVal.num 3) rfl rfl
    simpa [JSVal.isStr] using h
  · exact C5_validateEnv_amended.2.2.2.2.2 JSVal.null (fun o => by simp)

/-- C6: when the runtime settings fetch fails or its body fails to parse,
the lights-settings effect resets the env state to the defaults object in
both failure branches, and the purple-mountains effect leaves its
already-default state unchanged (a silent no-op). -/
theorem C6_settings_fetch_fallback :
    (∀ defaults : List (String × JSVal),
      lightsSettingsEffect defaults .fetchFail = defaults ∧
      lightsSettingsEffect defaults .parseFail = defaults) ∧
    (∀ (S : Type) (applyParsed : JSVal → S → S) (state : S),
      purpleSettingsEffect applyParsed state .statusNotOk = state ∧
      purpleSettingsEffect applyParsed state .threw = state) :=
  ⟨fun _ => ⟨rfl, rfl⟩, fun _ _ _ => ⟨rfl, rfl⟩⟩

theorem onResultsStep_throttled {st : MDState} {lm : Option (ℕ → Option Landmark)}
    {now : ℚ} (h : now - st.last < 1000 / 15) :
    onResultsStep st lm now = (st, none) := by
  unfold onResultsStep
  rw [if_pos h]

theorem onResultsStep_noLandmarks {st : MDState} {now : ℚ}
    (h : ¬ now - st.last < 1000 / 15) :
    onResultsStep st none now = ({ st with last := now, out := 0 }, some 0) := by
  unfold onResultsStep
  rw [if_neg h]

theorem onResultsStep_noVisible {st : MDState} {now : ℚ}
    {f : ℕ → Option Landmark} (h : ¬ now - st.last < 1000 / 15)
    (h1 : takeAvg f [23, 24] 0.5 = none)
    (h2 : takeAvg f [11, 12] 0.5 = none) :
    onResultsStep st (some f) now =
      ({ st with last := now, out := 0 }, some 0) := by
  unfold onResultsStep
  rw [if_neg h]
  simp only [h1, h2]

/-- C7 (amended): whenever the pose-results callback processes a result
past the throttle gap (at least 1000/15 ms after the previously processed
one; a throttled invocation emits nothing) that has no pose landmarks, or
in which neither the hip nor the shoulder landmarks pass the visibility
threshold, it emits exactly 0 through onChange; and a failed startup
records the waiting flag, so that a subsequent pointerdown/keydown gesture
retries startup. -/
theorem C7_motionDetector_zero_and_retry :
    (∀ (st : MDState) (now : ℚ), ¬ now - st.last < 1000 / 15 →
      (onResultsStep st none now).2 = some 0) ∧
    (∀ (st : MDState) (f : ℕ → Option Landmark) (now : ℚ),
      ¬ now - st.last < 1000 / 15 →
      takeAvg f [23, 24] 0.5 = none → takeAvg f [11, 12] 0.5 = none →
      (onResultsStep st (some f) now).2 = some 0) ∧
    (∀ w : Bool, startAttempt ⟨false, w⟩ false = ⟨false, true⟩) ∧
    gestureEvent ⟨false, true⟩ true = ⟨true, true⟩ := by
  refine ⟨?_, ?_, fun w => rfl, rfl⟩
  · intro st now h
    rw [onResultsStep_noLandmarks h]
  · intro st f now h h1 h2
    rw [onResultsStep_noVisible h h1 h2]

/-- C7 counterexample: a result with no landmarks arriving within the
throttle gap emits nothing at all, so the claim's unconditional "emits
exactly 0" is false as stated. -/
theorem C7_counterexample :
    (onResultsStep ⟨none, 0, 0, 100, none⟩ none 101).2 = none ∧
    (onResultsStep ⟨none, 0, 0, 100, none⟩ none 101).2 ≠ some 0 := by
  have h : (101 : ℚ) - (⟨none, 0, 0, 100, none⟩ : MDState).last < 1000 / 15 := by
    norm_num
  rw [onResultsStep_throttled h]
  exact ⟨rfl, by simp⟩

theorem C7_witness :
    (onResultsStep mdInit none 100).2 = some 0 ∧
    startAttempt ⟨false, false⟩ false = ⟨false, true⟩ ∧
    gestureEvent ⟨false, true⟩ true = ⟨true, true⟩ :=
  ⟨C7_motionDetector_zero_and_retry.1 mdInit 100 (by norm_num [mdInit]),
   C7_motionDetector_zero_and_retry.2.2.1 false,
   C7_motionDetector_zero_and_retry.2.2.2⟩

/-- C10: `clamp01` always returns a value in `[0, 1]`; an input whose
numeric conversion is NaN (undefined, non-numeric string, …) yields exactly
1, and a numeric input `q` yields `min 1 (max 0 q)`. -/
theorem C10_clamp01_range :
    ∀ v : JSVal, (0 ≤ clamp01 v ∧ clamp01 v ≤ 1) ∧
      (jsToNumber v = none → clamp01 v = 1) ∧
      (∀ q : ℚ, jsToNumber v = some q → clamp01 v = min 1 (max 0 q)) := by
  intro v
  unfold clamp01
  refine ⟨?_, ?_, ?_⟩
  · match h : jsToNumber v with
    | none => norm_num
    | some q =>
      constructor
      · exact le_min zero_le_one (le_max_left 0 q)
      · exact min_le_left 1 _
  · intro h
    rw [h]
  · intro q h
    rw [h]

theorem C10_witness :
    clamp01 (JSVal.str "spooky") = 1 ∧
    clamp01 (JSVal.num 7) = 1 ∧
    clamp01 JSVal.undef = 1 := by
  refine ⟨(C10_clamp01_range _).2.1 rfl, ?_, (C10_clamp01_range _).2.1 rfl⟩
  rw [(C10_clamp01_range (JSVal.num 7)).2.2 7 rfl]
  norm_num

end RainHalloween
